import Mathlib

/-!
Verification of the voudp voice-over-UDP server/client against its
natural-language specification.

Shallow embedding conventions:
* Byte strings are `List ℕ` (each entry intended `< 256`; where a claim
  needs it, byte-validity is an explicit hypothesis).
* Network endpoints (`SocketAddr`) are `ℕ`.
* `std::time::Instant` is a `ℕ` tick count; `Instant::duration_since`
  saturates at zero, which `Nat` subtraction models exactly.
* `f32` samples are exact rationals (`ℚ`).  The two transcendental f32
  intrinsics the code uses, `sqrt` and `tanh`, are opaque to every claim
  proved here, so they are a parameter (`FloatOps`); every theorem holds
  for an arbitrary interpretation of the two, hence in particular for the
  real f32 ones.
* Rust `HashMap`s are association lists (`alookup` / `aset`); iteration
  order, which `HashMap` leaves unspecified, is the list order.
-/

namespace Voudp

/-- Big-endian byte encoding of `v` into `n` bytes, as `u64::to_be_bytes` /
`u32::to_be_bytes` produce (the value is taken modulo `256^n`). -/
def beBytes : ℕ → ℕ → List ℕ
  | 0, _ => []
  | n + 1, v => beBytes n (v / 256) ++ [v % 256]

/-- Big-endian byte decoding, as `u32::from_be_bytes` computes. -/
def beToNat (bs : List ℕ) : ℕ := bs.foldl (fun a b => a * 256 + b) 0

theorem beBytes_length (n v : ℕ) : (beBytes n v).length = n := by
  induction n generalizing v with
  | zero => rfl
  | succ n ih => simp [beBytes, ih]

theorem beBytes_injOn (n : ℕ) : ∀ a b : ℕ, a < 256 ^ n → b < 256 ^ n →
    beBytes n a = beBytes n b → a = b := by
  induction n with
  | zero => intro a b ha hb _; omega
  | succ n ih =>
    intro a b ha hb h
    simp only [beBytes] at h
    have hlen : (beBytes n (a / 256)).length = (beBytes n (b / 256)).length := by
      simp [beBytes_length]
    obtain ⟨h1, h2⟩ := List.append_inj h hlen
    have hdiva : a / 256 < 256 ^ n := by
      have hlt : a < 256 ^ n * 256 := by rw [← pow_succ]; exact ha
      exact (Nat.div_lt_iff_lt_mul (by norm_num)).mpr hlt
    have hdivb : b / 256 < 256 ^ n := by
      have hlt : b < 256 ^ n * 256 := by rw [← pow_succ]; exact hb
      exact (Nat.div_lt_iff_lt_mul (by norm_num)).mpr hlt
    have hdiv := ih _ _ hdiva hdivb h1
    have hmod : a % 256 = b % 256 := by simpa using h2
    calc a = 256 * (a / 256) + a % 256 := by rw [Nat.div_add_mod]
    _ = 256 * (b / 256) + b % 256 := by rw [hdiv, hmod]
    _ = b := by rw [Nat.div_add_mod]

theorem foldl_beBytes (n : ℕ) : ∀ v acc : ℕ,
    (beBytes n v).foldl (fun a b => a * 256 + b) acc = acc * 256 ^ n + v % 256 ^ n := by
  induction n with
  | zero => intro v acc; simp [beBytes, Nat.mod_one]
  | succ n ih =>
    intro v acc
    have hp : (256:ℕ) ^ (n + 1) = 256 * 256 ^ n := by ring
    have h1 : v % (256 * 256 ^ n) % 256 = v % 256 := Nat.mod_mod_of_dvd v ⟨256 ^ n, rfl⟩
    have h2 : v % (256 * 256 ^ n) / 256 = v / 256 % 256 ^ n :=
      Nat.mod_mul_right_div_self v 256 (256 ^ n)
    have h3 := Nat.div_add_mod (v % (256 * 256 ^ n)) 256
    have hm : v % (256 * 256 ^ n) = 256 * (v / 256 % 256 ^ n) + v % 256 := by omega
    simp only [beBytes, List.foldl_append, List.foldl_cons, List.foldl_nil, ih]
    rw [hp, hm]
    ring

theorem beToNat_beBytes (n v : ℕ) (hv : v < 256 ^ n) : beToNat (beBytes n v) = v := by
  simpa [beToNat, Nat.mod_eq_of_lt hv] using foldl_beBytes n v 0

/-! ## Secure datagram socket (`src/voudp/src/socket.rs`)

`SecureUdpSocket::create` draws a fresh 4-byte `nonce_prefix` from `OsRng`
and starts `nonce_counter` (an `AtomicU64`) at 0.  Every `send_to` performs
`fetch_add(1)` on the counter and builds the 12-byte nonce
`nonce_prefix ++ counter.to_be_bytes()`.  We model the nonce of the `i`-th
outbound datagram of a socket's lifetime (0-indexed, so the counter value
is `i`, wrapping at `2^64` as the `u64` does). -/

/-- Nonce layout built in `SecureUdpSocket::send_to` (socket.rs:112-116):
4-byte prefix followed by the 8-byte big-endian counter. -/
def nonceBytes (pfx : List ℕ) (counter : ℕ) : List ℕ := pfx ++ beBytes 8 counter

/-- The nonce used by the `i`-th `send_to` call of a socket created by
`SecureUdpSocket::create`: the counter starts at 0 and is incremented once
per send, wrapping modulo `2^64`. -/
def nthNonce (pfx : List ℕ) (i : ℕ) : List ℕ := nonceBytes pfx (i % 2 ^ 64)

/-- RELIABLE_FLAG (protocol.rs). -/
def RELIABLE_FLAG : ℕ := 0x80
/-- ACK_FLAG (protocol.rs). -/
def ACK_FLAG : ℕ := 0x81

/-- `SecureUdpSocket::send_ack` (socket.rs:155-161): 5 plaintext bytes,
`ACK_FLAG` followed by the big-endian `u32` sequence number. -/
def send_ack_packet (seq : ℕ) : List ℕ := ACK_FLAG :: beBytes 4 seq

/-- Result of processing one successfully decrypted datagram in
`SecureUdpSocket::recv_from` (socket.rs:192-223). -/
structure RecvResult where
  /-- plaintext of the acknowledgement sent back to the sender, if any -/
  ackSent : Option (List ℕ)
  /-- the `Ok((len, bytes))` delivered to the caller (`none` = an `Err`) -/
  delivered : Option (ℕ × List ℕ)
  /-- sequence number removed from the pending (reliable) table, if any -/
  pendingRemoved : Option ℕ
deriving DecidableEq, Repr

/-- `SecureUdpSocket::recv_from` after a successful decrypt: the ACK branch
(`len == 5 && pt[0] == ACK_FLAG`), the reliable branch
(`len >= 6 && pt[0] == RELIABLE_FLAG`, which sends an ack and unwraps the
inner payload), and the plain branch, each guarded by the caller's buffer
size as in the source. -/
def processPlaintext (pt : List ℕ) (bufLen : ℕ) : RecvResult :=
  if pt.length = 5 ∧ pt.headD 0 = ACK_FLAG then
    { ackSent := none, delivered := some (0, []),
      pendingRemoved := some (beToNat ((pt.drop 1).take 4)) }
  else if 6 ≤ pt.length ∧ pt.headD 0 = RELIABLE_FLAG then
    let seq := beToNat ((pt.drop 1).take 4)
    let inner := pt.drop 5
    if bufLen < inner.length then
      { ackSent := some (send_ack_packet seq), delivered := none, pendingRemoved := none }
    else
      { ackSent := some (send_ack_packet seq), delivered := some (inner.length, inner),
        pendingRemoved := none }
  else if bufLen < pt.length then
    { ackSent := none, delivered := none, pendingRemoved := none }
  else
    { ackSent := none, delivered := some (pt.length, pt), pendingRemoved := none }

/-- `beBytes` is a left inverse of `beToNat` on byte strings of the right
length whose entries are bytes. -/
theorem beBytes_beToNat (l : List ℕ) (hb : ∀ b ∈ l, b < 256) :
    beBytes l.length (beToNat l) = l := by
  induction l using List.reverseRecOn with
  | nil => rfl
  | append_singleton xs x ih =>
    have hx : x < 256 := hb x (by simp)
    have hxs : ∀ b ∈ xs, b < 256 := fun b hbm => hb b (by simp [hbm])
    have hval : beToNat (xs ++ [x]) = beToNat xs * 256 + x := by
      simp [beToNat, List.foldl_append]
    have hdiv : (beToNat xs * 256 + x) / 256 = beToNat xs := by
      rw [Nat.add_comm, Nat.mul_comm,
        Nat.add_mul_div_left _ _ (by norm_num : (0:ℕ) < 256)]
      omega
    have hmod : (beToNat xs * 256 + x) % 256 = x := by
      rw [Nat.mul_comm, Nat.mul_add_mod]; exact Nat.mod_eq_of_lt hx
    have hlen : (xs ++ [x]).length = xs.length + 1 := by simp
    rw [hlen, hval, beBytes, hdiv, hmod, ih hxs]

/-- C2.  Any two sends with distinct indices below `2^64` carry distinct
nonces; every nonce is the fixed 4-byte prefix followed by the 8-byte
big-endian counter, and is 12 bytes long. -/
theorem nonce_unique (pfx : List ℕ) (i j : ℕ) (hpfx : pfx.length = 4)
    (hi : i < 2 ^ 64) (hj : j < 2 ^ 64) (hne : i ≠ j) :
    nthNonce pfx i ≠ nthNonce pfx j ∧
    (nthNonce pfx i).take 4 = pfx ∧
    (nthNonce pfx i).drop 4 = beBytes 8 i ∧
    (nthNonce pfx i).length = 12 := by
  have hpow : (2:ℕ) ^ 64 = 256 ^ 8 := by norm_num
  have himod : i % 2 ^ 64 = i := Nat.mod_eq_of_lt hi
  have hjmod : j % 2 ^ 64 = j := Nat.mod_eq_of_lt hj
  refine ⟨?_, ?_, ?_, ?_⟩
  · intro h
    simp only [nthNonce, nonceBytes, himod, hjmod] at h
    exact hne (beBytes_injOn 8 i j (hpow ▸ hi) (hpow ▸ hj) (List.append_cancel_left h))
  · simp only [nthNonce, nonceBytes, himod, ← hpfx]
    exact List.take_left _ _
  · simp only [nthNonce, nonceBytes, himod, ← hpfx]
    exact List.drop_left _ _
  · simp [nthNonce, nonceBytes, beBytes_length, hpfx]

/-- Witness for `nonce_unique` at prefix `[0,0,0,0]`, sends 0 and 1. -/
theorem nonce_unique_witness :
    ([0, 0, 0, 0] : List ℕ).length = 4 ∧ (0:ℕ) < 2 ^ 64 ∧ (1:ℕ) < 2 ^ 64 ∧ (0:ℕ) ≠ 1 ∧
    nthNonce [0, 0, 0, 0] 0 ≠ nthNonce [0, 0, 0, 0] 1 :=
  ⟨by decide, by norm_num, by norm_num, by decide,
    (nonce_unique [0, 0, 0, 0] 0 1 (by decide) (by norm_num) (by norm_num) (by decide)).1⟩

/-- C8 counterexample: a successfully decrypted plaintext whose first byte
is `0x80` but whose length is 5 elicits no acknowledgement (the reliable
branch of `recv_from` requires `plaintext.len() >= 6`), refuting
"for every such plaintext, regardless of its length". -/
theorem short_reliable_gets_no_ack :
    (processPlaintext [0x80, 0, 0, 0, 1] 2048).ackSent = none := by decide

/-- C8 amended: an acknowledgement (`0x81` followed by the enclosed 4-byte
big-endian sequence number) is sent exactly when the plaintext's first byte
is `RELIABLE_FLAG` and its length is at least 6. -/
theorem recv_reliable_ack (pt : List ℕ) (bufLen : ℕ) (hb : ∀ b ∈ pt, b < 256) :
    (processPlaintext pt bufLen).ackSent =
      if 6 ≤ pt.length ∧ pt.headD 0 = RELIABLE_FLAG then
        some (ACK_FLAG :: (pt.drop 1).take 4)
      else none := by
  by_cases h2 : 6 ≤ pt.length ∧ pt.headD 0 = RELIABLE_FLAG
  · have h1 : ¬(pt.length = 5 ∧ pt.headD 0 = ACK_FLAG) := by
      have := h2.1; intro h; have := h.1; omega
    have hlen : ((pt.drop 1).take 4).length = 4 := by
      have := h2.1
      simp only [List.length_take, List.length_drop]
      omega
    have hbytes : ∀ b ∈ (pt.drop 1).take 4, b < 256 := fun b hbm =>
      hb b (List.mem_of_mem_drop (List.mem_of_mem_take hbm))
    have key := beBytes_beToNat ((pt.drop 1).take 4) hbytes
    rw [hlen] at key
    rw [if_pos h2]
    unfold processPlaintext
    rw [if_neg h1, if_pos h2]
    rw [List.drop_one] at key
    simp only [apply_ite RecvResult.ackSent, ite_self, send_ack_packet, List.drop_one, key]
  · rw [if_neg h2]
    unfold processPlaintext
    by_cases h1 : pt.length = 5 ∧ pt.headD 0 = ACK_FLAG
    · rw [if_pos h1]
    · rw [if_neg h1, if_neg h2]
      by_cases h3 : bufLen < pt.length
      · rw [if_pos h3]
      · rw [if_neg h3]

/-- Witness for `recv_reliable_ack`: a 6-byte reliable wrap gets the ack. -/
theorem recv_reliable_ack_witness :
    (∀ b ∈ ([0x80, 0, 0, 0, 0, 7] : List ℕ), b < 256) ∧
    (processPlaintext [0x80, 0, 0, 0, 0, 7] 2048).ackSent = some [0x81, 0, 0, 0, 0] := by
  refine ⟨by decide, ?_⟩
  rw [recv_reliable_ack _ _ (by decide)]
  decide

/-! ## Chat forward codec (`ServerState::handle_chat` / `ChatPacket::deserialize`)

Strings travel as their UTF-8 bytes; `String::from_utf8` (re)validation is
the identity at the byte level on the round-trip path and is not modelled. -/

/-- `Iterator::position`: index of the first element satisfying `p`. -/
def findPos (p : ℕ → Bool) : List ℕ → Option ℕ
  | [] => none
  | x :: xs => if p x then some 0 else (findPos p xs).map (· + 1)

/-- The chat forward packet built by `ServerState::handle_chat`
(server.rs:639-643): `[0x06] ++ mask ++ [0x01] ++ [is_self as u8] ++ message`. -/
def chatForwardPacket (mask : List ℕ) (isSelf : Bool) (msg : List ℕ) : List ℕ :=
  0x06 :: (mask ++ 0x01 :: (if isSelf then 1 else 0) :: msg)

/-- `ChatPacket::deserialize` (util.rs:362-403): checks the tag, finds the
first `0x01` after it, and splits into username / is_self flag / message. -/
def chatDeserialize (bytes : List ℕ) : Option (List ℕ × Bool × List ℕ) :=
  match bytes with
  | [] => none
  | b :: rest =>
    if b ≠ 0x06 then none
    else if bytes.length < 3 then none
    else
      match findPos (· == 0x01) rest with
      | none => none
      | some idx =>
        let delimiterPos := idx + 1
        if delimiterPos = 1 then none
        else if bytes.length ≤ delimiterPos + 1 then none
        else some (rest.take idx, bytes.getD (delimiterPos + 1) 0 != 0,
          bytes.drop (delimiterPos + 2))

theorem findPos_append_first {xs : List ℕ} {y : ℕ} {ys : List ℕ} {p : ℕ → Bool}
    (hxs : ∀ x ∈ xs, p x = false) (hy : p y = true) :
    findPos p (xs ++ y :: ys) = some xs.length := by
  induction xs with
  | nil => simp [findPos, hy]
  | cons a as ih =>
    have ha : p a = false := hxs a (by simp)
    have ih2 := ih fun x hx => hxs x (by simp [hx])
    show findPos p (a :: (as ++ y :: ys)) = some (as.length + 1)
    simp only [findPos, ha, Bool.false_eq_true, if_false]
    show (findPos p (as ++ y :: ys)).map (· + 1) = some (as.length + 1)
    rw [ih2]
    rfl

/-- C3 counterexample: a mask that itself contains the delimiter byte
`0x01` (the valid one-byte UTF-8 string `"\u{1}"`) breaks the round trip:
the parser splits at the first `0x01` and rejects the packet ("username is
empty"), so the decoded value is not `(m, is_self, t)`. -/
theorem chat_roundtrip_fails_on_delim_mask :
    chatDeserialize (chatForwardPacket [1] false [104, 105]) ≠
      some ([1], false, [104, 105]) := by decide

/-- C3 amended: the chat forward round-trips exactly when the sender mask
is non-empty (which `handle_mask` guarantees) and contains no `0x01` byte:
the client-side parser returns exactly the mask, the is_self flag and the
message. -/
theorem chat_roundtrip (mask msg : List ℕ) (isSelf : Bool)
    (hne : mask ≠ []) (hdelim : (1:ℕ) ∉ mask) :
    chatDeserialize (chatForwardPacket mask isSelf msg) = some (mask, isSelf, msg) := by
  have hmlen : 1 ≤ mask.length := List.length_pos.mpr hne
  have key : ∀ flag : ℕ, chatDeserialize (0x06 :: (mask ++ 0x01 :: flag :: msg))
      = some (mask, flag != 0, msg) := by
    intro flag
    have hfind : findPos (· == 0x01) (mask ++ 0x01 :: flag :: msg) = some mask.length := by
      refine findPos_append_first (fun x hx => ?_) (by simp)
      simp only [beq_eq_false_iff_ne, ne_eq]
      exact fun h => hdelim (h ▸ hx)
    have hL : (0x06 :: (mask ++ 0x01 :: flag :: msg)).length
        = mask.length + msg.length + 3 := by
      simp only [List.length_cons, List.length_append]
      omega
    have htake : (mask ++ 0x01 :: flag :: msg).take mask.length = mask :=
      List.take_left mask _
    have hflag : (0x06 :: (mask ++ 0x01 :: flag :: msg)).getD (mask.length + 1 + 1) 0
        = flag := by
      show (0x06 :: (mask ++ 0x01 :: flag :: msg)).getD (mask.length + 1).succ 0 = flag
      rw [List.getD_cons_succ,
        List.getD_append_right mask (0x01 :: flag :: msg) 0 (mask.length + 1) (by omega)]
      have : mask.length + 1 - mask.length = 1 := by omega
      rw [this]
      rfl
    have hdrop : (0x06 :: (mask ++ 0x01 :: flag :: msg)).drop (mask.length + 1 + 2)
        = msg := by
      show (0x06 :: (mask ++ 0x01 :: flag :: msg)).drop (mask.length + 2).succ = msg
      rw [List.drop_succ_cons]
      have hsplit : mask ++ 0x01 :: flag :: msg = (mask ++ [0x01, flag]) ++ msg := by simp
      have hlen2 : (mask ++ [0x01, flag]).length = mask.length + 2 := by simp
      rw [hsplit, ← hlen2, List.drop_left]
    simp only [chatDeserialize, hfind]
    rw [if_neg (by norm_num), if_neg (by omega), if_neg (by omega), if_neg (by omega)]
    rw [htake, hflag, hdrop]
  rw [chatForwardPacket, key]
  cases isSelf <;> simp

/-- Witness for `chat_roundtrip`: mask "ab", message "hi", is_self = true. -/
theorem chat_roundtrip_witness :
    ([97, 98] : List ℕ) ≠ [] ∧ (1:ℕ) ∉ ([97, 98] : List ℕ) ∧
    chatDeserialize (chatForwardPacket [97, 98] true [104, 105])
      = some ([97, 98], true, [104, 105]) :=
  ⟨by decide, by decide, chat_roundtrip [97, 98] [104, 105] true (by decide) (by decide)⟩

/-! ## Server state and dispatcher (`src/voudp/src/server.rs`)

`HashMap`s become association lists with unique keys; `Arc<Mutex<Remote>>`
sharing becomes lookup by endpoint key (the pattern §9 of the spec calls
arena-and-index).  The jitter buffer and the per-channel PCM `buffers` /
`filter_states` maps are modelled separately in the mixer section; here a
channel carries what the dispatcher claims touch: its name and member
list.  Packet payload text that depends on the wall clock or on string
formatting ("Welcome to this server...", "You have been moved to #...",
channel names "general-{id}") is abstracted: the former is a parameter of
`handle_join`, the latter two are uninterpreted byte-string functions. -/

/-- Association-list lookup (`HashMap::get`). -/
def alookup {α : Type} : List (ℕ × α) → ℕ → Option α
  | [], _ => none
  | (k, v) :: rest, a => if k = a then some v else alookup rest a

/-- Association-list update of an existing key (`HashMap` insert-over). -/
def aset {α : Type} : List (ℕ × α) → ℕ → α → List (ℕ × α)
  | [], _, _ => []
  | (k, v) :: rest, a, w => if k = a then (k, w) :: rest else (k, v) :: aset rest a w

/-- `Remote` (server.rs:77-86), the fields the dispatcher reads/writes.
The Opus codec pair and jitter buffer are not needed by these claims. -/
structure RemoteM where
  lastActive : ℕ
  channelId : ℕ
  mask : Option (List ℕ)
  deaf : Bool
  mute : Bool
deriving DecidableEq, Repr

/-- `Remote::new` (server.rs:89-107): channel id 0, no mask, default flags. -/
def RemoteM.new (now : ℕ) : RemoteM :=
  { lastActive := now, channelId := 0, mask := none, deaf := false, mute := false }

/-- `Channel` (server.rs:126-133) as seen by the dispatcher. -/
structure ChannelM where
  name : Option (List ℕ)
  members : List ℕ
deriving DecidableEq, Repr

/-- `Channel::add_remote` (server.rs:148-155): pushes the remote onto the
member list (the `buffers`/`filter_states` inserts live in the mixer model). -/
def channelAddRemote (ch : ChannelM) (addr : ℕ) : ChannelM :=
  { ch with members := ch.members ++ [addr] }

/-- `Channel::remove_remote` (server.rs:157-161): retains every member
whose address differs, i.e. removes all occurrences. -/
def channelRemoveRemote (ch : ChannelM) (addr : ℕ) : ChannelM :=
  { ch with members := ch.members.filter (· ≠ addr) }

/-- `ServerState` (server.rs:245-253), the parts the dispatcher claims touch. -/
structure ServerStateM where
  remotes : List (ℕ × RemoteM)
  consoles : List (ℕ × ℕ)
  channels : List (ℕ × ChannelM)
  audioRb : List (ℕ × List ℕ)
  maxUsers : ℕ
deriving DecidableEq, Repr

/-- Outbound datagrams: (destination, plaintext payload). -/
abbrev Sends := List (ℕ × List ℕ)

/-- DM packet (server.rs:775-779): tag 0x11 then the message bytes. -/
def dmPacket (msg : List ℕ) : List ℕ := 0x11 :: msg

/-- FLOW_JOIN packet (server.rs:899-901). -/
def flowJoinPacket (mask : List ℕ) : List ℕ := 0x0a :: mask

/-- FLOW_LEAVE packet (server.rs:469-470, 941-942). -/
def leavePacket (mask : List ℕ) : List ℕ := 0x0b :: mask

/-- FLOW_RENICK packet (server.rs:890-896): `len as u8` wraps mod 256. -/
def renickPacket (old new : List ℕ) : List ℕ :=
  0x10 :: (old.length % 256) :: (old ++ (new.length % 256) :: new)

/-- Uninterpreted stand-in for the formatted "You have been moved to
#{name}" DM body (server.rs:429-435); its exact text decides no claim. -/
def movedMsg (name : List ℕ) : List ℕ := name

/-- Uninterpreted stand-in for the UTF-8 of `format!("general-{id}")`
(server.rs:427); its exact text decides no claim. -/
def defaultChanName (chanId : ℕ) : List ℕ := [chanId]

/-- `ServerState::broadcast_join_masked` (server.rs:872-909): sends a
renick (if an old mask exists) or a flow-join packet to every member of
the channel; a missing channel means an empty peer list. -/
def broadcastJoinMasked (st : ServerStateM) (channelId : ℕ) (newMask : List ℕ)
    (oldMask : Option (List ℕ)) : Sends :=
  let peers := ((alookup st.channels channelId).map ChannelM.members).getD []
  let pkt := match oldMask with
    | some old => renickPacket old newMask
    | none => flowJoinPacket newMask
  peers.map fun a => (a, pkt)

/-- The channel-id guard of `handle_join` (server.rs:380-383), verbatim:
`chan_id == 0 && chan_id >= u16::MAX as u32`.  Note the `&&`. -/
def joinIdRejected (chanId : ℕ) : Bool := chanId == 0 && decide (65535 ≤ chanId)

/-- `ServerState::handle_join` (server.rs:373-440).  `welcome` abstracts
the clock-dependent welcome text.  Mirrors the source order: welcome DM to
unknown endpoints, remote creation (`entry.or_insert_with`), channel-id
update, removal from the old channel (only when it differs and is
non-zero), the mask broadcast, lazy channel creation, the moved DM, and
`add_remote`. -/
def handle_join (st : ServerStateM) (now addr : ℕ) (data : List ℕ)
    (welcome : List ℕ) : ServerStateM × Sends :=
  if data.length < 4 then (st, [])
  else
    let chanId := beToNat (data.take 4)
    if joinIdRejected chanId then (st, [])
    else
      let isNew := (alookup st.remotes addr).isNone
      let sends0 : Sends := if isNew then [(addr, dmPacket welcome)] else []
      let remotes1 := if isNew then st.remotes ++ [(addr, RemoteM.new now)] else st.remotes
      let r := (alookup remotes1 addr).getD (RemoteM.new now)
      let oldChannelId := r.channelId
      let mask := r.mask
      let remotes2 := aset remotes1 addr { r with channelId := chanId }
      let channels1 :=
        if oldChannelId ≠ chanId ∧ oldChannelId ≠ 0 ∧
            (alookup st.channels oldChannelId).isSome then
          aset st.channels oldChannelId
            (channelRemoveRemote ((alookup st.channels oldChannelId).getD ⟨none, []⟩) addr)
        else st.channels
      let st1 : ServerStateM := { st with remotes := remotes2, channels := channels1 }
      let sends1 := match mask with
        | some m => broadcastJoinMasked st1 chanId m none
        | none => []
      let (channels2, chan) := match alookup channels1 chanId with
        | some ch => (channels1, ch)
        | none =>
          let ch : ChannelM := { name := some (defaultChanName chanId), members := [] }
          (channels1 ++ [(chanId, ch)], ch)
      let sends2 : Sends := match chan.name with
        | some nm => [(addr, dmPacket (movedMsg nm))]
        | none => []
      let channels3 := aset channels2 chanId (channelAddRemote chan addr)
      ({ st1 with channels := channels3 }, sends0 ++ sends1 ++ sends2)

/-- `ServerState::handle_audio` (server.rs:442-457): unknown endpoints are
dropped; otherwise refresh liveness and push onto the audio ring buffer
unless it is full (capacity `max_users`). -/
def handle_audio (st : ServerStateM) (now addr : ℕ) (data : List ℕ) :
    ServerStateM × Sends :=
  match alookup st.remotes addr with
  | none => (st, [])
  | some r =>
    let st1 := { st with remotes := aset st.remotes addr { r with lastActive := now } }
    if st1.audioRb.length ≥ st1.maxUsers then (st1, [])
    else ({ st1 with audioRb := st1.audioRb ++ [(addr, data)] }, [])

/-- `ServerState::handle_eof` (server.rs:459-487). -/
def handle_eof (st : ServerStateM) (addr : ℕ) : ServerStateM × Sends :=
  match alookup st.remotes addr with
  | none => (st, [])
  | some r =>
    match alookup st.channels r.channelId with
    | none => ({ st with remotes := st.remotes.filter (·.1 ≠ addr) }, [])
    | some ch =>
      let sends := match r.mask with
        | some m => ch.members.map fun a => (a, leavePacket m)
        | none => []
      ({ st with remotes := st.remotes.filter (·.1 ≠ addr),
                 channels := aset st.channels r.channelId (channelRemoveRemote ch addr) },
        sends)

/-- `ServerState::handle_mask` (server.rs:490-526): unknown endpoints and
empty masks are dropped; otherwise store the mask and broadcast a renick
(old mask present) or flow-join.  UTF-8 validation is identity on bytes. -/
def handle_mask (st : ServerStateM) (addr : ℕ) (data : List ℕ) :
    ServerStateM × Sends :=
  match alookup st.remotes addr with
  | none => (st, [])
  | some r =>
    if data = [] then (st, [])
    else
      let st1 := { st with remotes := aset st.remotes addr { r with mask := some data } }
      (st1, broadcastJoinMasked st1 r.channelId data r.mask)

/-- Per-channel section of the LIST reply (server.rs:545-590).  Members
whose remote entry is gone (dangling `Arc`) are read through the map with
a default; no claim depends on this payload. -/
def listChannelInfo (st : ServerStateM) (chanId : ℕ) (ch : ChannelM) : List ℕ :=
  let infos := ch.members.map fun a => (alookup st.remotes a).getD (RemoteM.new 0)
  let maskedUsers := infos.filterMap fun r => r.mask.map fun m => (m, r.mute, r.deaf)
  let unmaskedCount := (infos.filter (·.mask.isNone)).length
  let namePart := match ch.name with
    | some nm => nm.length % 256 :: nm
    | none => [0]
  namePart ++ beBytes 4 chanId ++ beBytes 4 unmaskedCount ++ beBytes 4 maskedUsers.length
    ++ (maskedUsers.map fun mu => mu.1 ++ [0x01, (if mu.2.1 then 1 else 0) +
      2 * (if mu.2.2 then 1 else 0)]).flatten

/-- The LIST reply packet (server.rs:592-598). -/
def buildListPacket (st : ServerStateM) (currentId : ℕ) : List ℕ :=
  0x05 :: (beBytes 4 currentId ++ beBytes 4 st.channels.length
    ++ (st.channels.map fun c => listChannelInfo st c.1 c.2).flatten)

/-- `ServerState::handle_list` (server.rs:528-603): unknown endpoints are
dropped; otherwise refresh liveness and send the global list. -/
def handle_list (st : ServerStateM) (now addr : ℕ) : ServerStateM × Sends :=
  match alookup st.remotes addr with
  | none => (st, [])
  | some r =>
    let st1 := { st with remotes := aset st.remotes addr { r with lastActive := now } }
    (st1, [(addr, buildListPacket st1 r.channelId)])

/-- `ServerState::handle_chat` (server.rs:605-656): unknown endpoints and
missing channels are dropped; an unmasked sender gets the UNAUTH notice
0x07; a masked sender's message is forwarded to every member occurrence. -/
def handle_chat (st : ServerStateM) (addr : ℕ) (data : List ℕ) :
    ServerStateM × Sends :=
  match alookup st.remotes addr with
  | none => (st, [])
  | some r =>
    match alookup st.channels r.channelId with
    | none => (st, [])
    | some ch =>
      match r.mask with
      | some mask => (st, ch.members.map fun a => (a, chatForwardPacket mask (a == addr) data))
      | none => (st, [(addr, [0x07])])

/-- `ControlPacket::deserialize` (util.rs:462-478) standing in for the
missing `util::parse_control_packet` called at server.rs:669. -/
def parse_control (data : List ℕ) : Option ℕ :=
  match data with
  | [] => none
  | b :: _ => if 1 ≤ b ∧ b ≤ 4 then some b else none

/-- `ServerState::handle_ctrl` (server.rs:658-681). -/
def handle_ctrl (st : ServerStateM) (addr : ℕ) (data : List ℕ) :
    ServerStateM × Sends :=
  match alookup st.remotes addr with
  | none => (st, [])
  | some r =>
    match parse_control data with
    | none => (st, [])
    | some 1 => ({ st with remotes := aset st.remotes addr { r with deaf := true } }, [])
    | some 2 => ({ st with remotes := aset st.remotes addr { r with deaf := false } }, [])
    | some 3 => ({ st with remotes := aset st.remotes addr { r with mute := true } }, [])
    | some _ => ({ st with remotes := aset st.remotes addr { r with mute := false } }, [])

/-- `ServerState::handle_sync_commands` (server.rs:720-768): the command
table reply is sent to `addr` WITHOUT any registration check.  `syncBody`
abstracts the serialized command table (commands.rs), which no claim
inspects. -/
def handle_sync_commands (st : ServerStateM) (addr : ℕ) (syncBody : List ℕ) :
    ServerStateM × Sends :=
  (st, [(addr, 0x0c :: syncBody)])

/-- `ServerState::handle_cmd` (server.rs:683-718): a command from an
unknown endpoint returns before any action.  The known-endpoint command
execution path (commands.rs) is not modelled: no claim below sends CMD
from a registered endpoint. -/
def handle_cmd (st : ServerStateM) (addr : ℕ) (_data : List ℕ) :
    ServerStateM × Sends :=
  match alookup st.remotes addr with
  | none => (st, [])
  | some _ => (st, [])

/-- The console password (protocol.rs: `PASSWORD = "password"`). -/
def consolePassword : List ℕ := [112, 97, 115, 115, 119, 111, 114, 100]

/-- `ServerState::register_console` (server.rs:358-371).  `badNotice`
abstracts `send_bad_packet_notice`'s payload (its source is not in this
snapshot); no claim inspects it. -/
def register_console (st : ServerStateM) (now addr : ℕ) (data : List ℕ)
    (badNotice : List ℕ) : ServerStateM × Sends :=
  if data = consolePassword then
    ({ st with consoles := st.consoles ++ [(addr, now)] }, [])
  else (st, [(addr, badNotice)])

/-- Abstracted environment inputs of the dispatcher: the clock-formatted
welcome text, the serialized command table and the bad-packet notice. -/
structure DispatchEnv where
  welcome : List ℕ
  syncBody : List ℕ
  badNotice : List ℕ

/-- `ServerState::handle_packet` (server.rs:329-356): empty datagrams are
ignored; registered consoles take the console dispatch (console_cmd.rs,
not modelled: every claim below concerns non-console sources); otherwise
dispatch on the first byte exactly as `ClientPacketType::try_from` does
(tags 0x0a, 0x0b, 0x0e, 0x10, 0x11 and unassigned values all fall through
to the error log). -/
def handle_packet (env : DispatchEnv) (st : ServerStateM) (now addr : ℕ)
    (data : List ℕ) : ServerStateM × Sends :=
  if data = [] then (st, [])
  else if (alookup st.consoles addr).isSome then (st, [])
  else if data.headD 0 = 0x01 then handle_join st now addr (data.drop 1) env.welcome
  else if data.headD 0 = 0x02 then handle_audio st now addr (data.drop 1)
  else if data.headD 0 = 0x03 then handle_eof st addr
  else if data.headD 0 = 0x04 then handle_mask st addr (data.drop 1)
  else if data.headD 0 = 0x05 then handle_list st now addr
  else if data.headD 0 = 0x06 then handle_chat st addr (data.drop 1)
  else if data.headD 0 = 0x08 then handle_ctrl st addr (data.drop 1)
  else if data.headD 0 = 0x0c then handle_sync_commands st addr env.syncBody
  else if data.headD 0 = 0x0d then handle_cmd st addr (data.drop 1)
  else if data.headD 0 = 0xff then register_console st now addr (data.drop 1) env.badNotice
  else (st, [])

/-- `ServerState::cleanup`, console branch (server.rs:914-925): a console
is kept unless `console.last_active.duration_since(now) > timeout` — note
the swapped operands compared to the remote branch; `duration_since`
saturates at zero. -/
def consoleKept (now timeoutSecs lastActive : ℕ) : Bool :=
  !decide (lastActive - now > timeoutSecs)

/-- `ServerState::cleanup`, remote branch keep-decision (server.rs:932):
`now.duration_since(last_active) > timeout` drops the remote. -/
def remoteKept (now timeoutSecs lastActive : ℕ) : Bool :=
  !decide (now - lastActive > timeoutSecs)

/-- The `consoles.retain` pass of `ServerState::cleanup`. -/
def cleanup_consoles (consoles : List (ℕ × ℕ)) (now timeoutSecs : ℕ) : List (ℕ × ℕ) :=
  consoles.filter fun c => consoleKept now timeoutSecs c.2

/-- `alookup` after `aset` at a present key returns the new value. -/
theorem alookup_aset_self {α : Type} (l : List (ℕ × α)) (k : ℕ) (v w : α)
    (h : alookup l k = some w) : alookup (aset l k v) k = some v := by
  induction l with
  | nil => simp [alookup] at h
  | cons p rest ih =>
    obtain ⟨a, b⟩ := p
    by_cases hk : a = k
    · simp [aset, alookup, hk]
    · simp only [aset, alookup, hk, if_false] at h ⊢
      exact ih h

/-- The `handle_join` channel-id guard (server.rs:380) never fires:
`chan_id == 0 && chan_id >= u16::MAX` is unsatisfiable. -/
theorem joinIdRejected_false (c : ℕ) : joinIdRejected c = false := by
  by_cases hc : c = 0
  · subst hc; decide
  · simp [joinIdRejected, hc]

/-- C4 (amended): a plaintext datagram from an endpoint that is neither a
registered remote nor a registered console produces no reply and no state
change for every tag except JOIN (0x01), SYNC_COMMANDS (0x0c) and
REGISTER_CONSOLE (0xff). -/
theorem unknown_endpoint_ignored (env : DispatchEnv) (st : ServerStateM)
    (now addr : ℕ) (data : List ℕ)
    (hr : alookup st.remotes addr = none) (hc : alookup st.consoles addr = none)
    (h01 : data.headD 0 ≠ 0x01) (h0c : data.headD 0 ≠ 0x0c) (hff : data.headD 0 ≠ 0xff) :
    handle_packet env st now addr data = (st, []) := by
  unfold handle_packet
  by_cases h0 : data = []
  · rw [if_pos h0]
  have hc' : ¬((alookup st.consoles addr).isSome = true) := by rw [hc]; simp
  rw [if_neg h0, if_neg hc', if_neg h01]
  by_cases t2 : data.headD 0 = 0x02
  · rw [if_pos t2]; unfold handle_audio; rw [hr]
  rw [if_neg t2]
  by_cases t3 : data.headD 0 = 0x03
  · rw [if_pos t3]; unfold handle_eof; rw [hr]
  rw [if_neg t3]
  by_cases t4 : data.headD 0 = 0x04
  · rw [if_pos t4]; unfold handle_mask; rw [hr]
  rw [if_neg t4]
  by_cases t5 : data.headD 0 = 0x05
  · rw [if_pos t5]; unfold handle_list; rw [hr]
  rw [if_neg t5]
  by_cases t6 : data.headD 0 = 0x06
  · rw [if_pos t6]; unfold handle_chat; rw [hr]
  rw [if_neg t6]
  by_cases t8 : data.headD 0 = 0x08
  · rw [if_pos t8]; unfold handle_ctrl; rw [hr]
  rw [if_neg t8, if_neg h0c]
  by_cases t13 : data.headD 0 = 0x0d
  · rw [if_pos t13]; unfold handle_cmd; rw [hr]
  rw [if_neg t13, if_neg hff]

/-- Witness for `unknown_endpoint_ignored`: a CHAT from an unknown
endpoint against a server with one channel and no remotes. -/
theorem unknown_endpoint_ignored_witness :
    alookup (ServerStateM.mk [] [] [(1, ⟨some [103], []⟩)] [] 16).remotes 5 = none ∧
    handle_packet ⟨[], [], []⟩ (ServerStateM.mk [] [] [(1, ⟨some [103], []⟩)] [] 16) 0 5
      [0x06, 104, 105] = (ServerStateM.mk [] [] [(1, ⟨some [103], []⟩)] [] 16, []) :=
  ⟨by decide,
    unknown_endpoint_ignored ⟨[], [], []⟩ _ 0 5 [0x06, 104, 105]
      (by decide) (by decide) (by decide) (by decide) (by decide)⟩

/-- C4 counterexample: SYNC_COMMANDS (0x0c) from an endpoint that is
neither a registered remote nor a registered console DOES get a reply —
`handle_sync_commands` performs no registration check — refuting the
claim as stated. -/
theorem sync_commands_replies_to_unknown :
    alookup (ServerStateM.mk [] [] [(1, ⟨some [103], []⟩)] [] 16).remotes 5 = none ∧
    alookup (ServerStateM.mk [] [] [(1, ⟨some [103], []⟩)] [] 16).consoles 5 = none ∧
    (handle_packet ⟨[], [], []⟩ (ServerStateM.mk [] [] [(1, ⟨some [103], []⟩)] [] 16) 0 5
      [0x0c]).2 = [(5, [0x0c])] := by decide

/-- C5: there is no RemoteLimit check.  With `max_users = 1` and the table
already holding one remote, a JOIN from a new endpoint still creates the
remote, adds it to the channel's member list and replies with two DMs. -/
theorem join_ignores_remote_limit :
    (ServerStateM.mk [(1, RemoteM.new 0)] [] [] [] 1).remotes.length
      = (ServerStateM.mk [(1, RemoteM.new 0)] [] [] [] 1).maxUsers ∧
    alookup (ServerStateM.mk [(1, RemoteM.new 0)] [] [] [] 1).remotes 2 = none ∧
    (handle_join (ServerStateM.mk [(1, RemoteM.new 0)] [] [] [] 1) 0 2
      [0, 0, 0, 5] []).1.remotes.length = 2 ∧
    alookup (handle_join (ServerStateM.mk [(1, RemoteM.new 0)] [] [] [] 1) 0 2
      [0, 0, 0, 5] []).1.channels 5 = some ⟨some (defaultChanName 5), [2]⟩ ∧
    (handle_join (ServerStateM.mk [(1, RemoteM.new 0)] [] [] [] 1) 0 2
      [0, 0, 0, 5] []).2 ≠ [] := by decide

/-- C6: the channel-id-0 rejection is dead code (`&&` instead of `||`), so
a JOIN carrying channel id 0 is processed and leaves the remote with
channel id 0 — after a processed JOIN the id CAN be 0 (a channel with id
0 is even created around it). -/
theorem join_channel_zero_accepted :
    (∀ c : ℕ, joinIdRejected c = false) ∧
    alookup (handle_join (ServerStateM.mk [] [] [] [] 8) 0 7 [0, 0, 0, 0] []).1.remotes 7
      = some { lastActive := 0, channelId := 0, mask := none, deaf := false, mute := false } ∧
    alookup (handle_join (ServerStateM.mk [] [] [] [] 8) 0 7 [0, 0, 0, 0] []).1.channels 0
      = some ⟨some (defaultChanName 0), [7]⟩ :=
  ⟨joinIdRejected_false, by decide, by decide⟩

/-- C7: the console branch of `cleanup` compares
`last_active.duration_since(now)` (saturating to zero) with the timeout,
so an idle console is NEVER removed — while the remote branch, with the
operands the right way round, does drop an equally idle remote. -/
theorem idle_consoles_never_reaped (consoles : List (ℕ × ℕ)) (now timeoutSecs : ℕ)
    (hpast : ∀ c ∈ consoles, c.2 ≤ now) :
    cleanup_consoles consoles now timeoutSecs = consoles ∧
    remoteKept 100 5 0 = false := by
  refine ⟨?_, by decide⟩
  apply List.filter_eq_self.mpr
  intro c hcmem
  have := hpast c hcmem
  simp only [consoleKept, Bool.not_eq_true', decide_eq_false_iff_not]
  omega

/-- Witness for `idle_consoles_never_reaped`: a console 100 ticks idle
with a 5-tick timeout survives cleanup. -/
theorem idle_consoles_never_reaped_witness :
    (∀ c ∈ [((7:ℕ), (0:ℕ))], c.2 ≤ 100) ∧
    cleanup_consoles [(7, 0)] 100 5 = [(7, 0)] :=
  ⟨by decide, (idle_consoles_never_reaped [(7, 0)] 100 5 (by decide)).1⟩

/-- C10: a second JOIN for a remote's current channel `c` appends the
remote to `c`'s member list again without removing the existing entry; the
remote then occurs more than once, every chat broadcast targets it once
per occurrence, and `remove_remote` is what deduplicates (it removes all
occurrences). -/
theorem rejoin_duplicates_member (st : ServerStateM) (now addr c : ℕ)
    (r : RemoteM) (ch : ChannelM) (w m msg : List ℕ)
    (hr : alookup st.remotes addr = some r) (hcid : r.channelId = c)
    (hch : alookup st.channels c = some ch) (hmem : addr ∈ ch.members)
    (hc32 : c < 2 ^ 32) (hmask : r.mask = some m) :
    ∃ ch', alookup (handle_join st now addr (beBytes 4 c) w).1.channels c = some ch' ∧
      ch'.members.count addr = ch.members.count addr + 1 ∧
      1 < ch'.members.count addr ∧
      ((handle_chat (handle_join st now addr (beBytes 4 c) w).1 addr msg).2.map Prod.fst)
        = ch'.members ∧
      (channelRemoveRemote ch' addr).members.count addr = 0 := by
  have hlen4 : (beBytes 4 c).length = 4 := beBytes_length 4 c
  have hc256 : c < 256 ^ 4 := by
    have h2 : (2:ℕ) ^ 32 = 4294967296 := by norm_num
    have h256 : (256:ℕ) ^ 4 = 4294967296 := by norm_num
    omega
  have hdec : beToNat ((beBytes 4 c).take 4) = c := by
    rw [List.take_of_length_le (by rw [hlen4])]
    exact beToNat_beBytes 4 c hc256
  have hmain : (handle_join st now addr (beBytes 4 c) w).1 =
      { st with remotes := aset st.remotes addr { r with channelId := c },
                channels := aset st.channels c (channelAddRemote ch addr) } := by
    unfold handle_join
    rw [if_neg (by rw [hlen4]; omega)]
    simp only [hdec, joinIdRejected_false, Bool.false_eq_true, if_false, hr,
      Option.isNone_some, Option.getD_some, hcid, hch, ne_eq, not_true_eq_false,
      false_and, and_false]
  have hch' : alookup (handle_join st now addr (beBytes 4 c) w).1.channels c
      = some (channelAddRemote ch addr) := by
    rw [hmain]
    exact alookup_aset_self _ _ _ _ hch
  refine ⟨channelAddRemote ch addr, hch', ?_, ?_, ?_, ?_⟩
  · simp [channelAddRemote, List.count_append]
  · have hpos : 0 < ch.members.count addr := List.count_pos_iff.mpr hmem
    have hcnt : (channelAddRemote ch addr).members.count addr
        = ch.members.count addr + 1 := by
      simp [channelAddRemote, List.count_append]
    omega
  · rw [hmain]
    unfold handle_chat
    rw [alookup_aset_self _ _ _ _ hr]
    show ((match alookup (aset st.channels c (channelAddRemote ch addr))
        ({ r with channelId := c } : RemoteM).channelId with
      | none => _
      | some ch2 => match ({ r with channelId := c } : RemoteM).mask with
        | some mask => (_, ch2.members.map fun a => (a, chatForwardPacket mask (a == addr) msg))
        | none => _ : ServerStateM × Sends)).2.map Prod.fst
      = (channelAddRemote ch addr).members
    rw [show ({ r with channelId := c } : RemoteM).channelId = c from rfl,
      alookup_aset_self _ _ _ _ hch,
      show ({ r with channelId := c } : RemoteM).mask = r.mask from rfl, hmask]
    simp only [List.map_map]
    have hcomp : (Prod.fst ∘ fun a => ((a : ℕ), chatForwardPacket m (a == addr) msg))
        = id := rfl
    rw [hcomp, List.map_id]
  · simp [channelRemoveRemote, List.count_eq_zero, List.mem_filter]

/-- Witness for `rejoin_duplicates_member`: remote 3 already in channel 2
re-joins channel 2. -/
theorem rejoin_duplicates_member_witness :
    alookup [(3, RemoteM.mk 0 2 (some [97]) false false)] 3
      = some (RemoteM.mk 0 2 (some [97]) false false) ∧
    alookup [(2, ChannelM.mk (some [110]) [3])] 2 = some (ChannelM.mk (some [110]) [3]) ∧
    (3:ℕ) ∈ [3] ∧ (2:ℕ) < 2 ^ 32 ∧
    (∃ ch', alookup (handle_join
        (ServerStateM.mk [(3, RemoteM.mk 0 2 (some [97]) false false)] []
          [(2, ChannelM.mk (some [110]) [3])] [] 4) 5 3 (beBytes 4 2) []).1.channels 2
        = some ch' ∧
      ch'.members.count 3 = ([3] : List ℕ).count 3 + 1 ∧
      1 < ch'.members.count 3 ∧
      ((handle_chat (handle_join
        (ServerStateM.mk [(3, RemoteM.mk 0 2 (some [97]) false false)] []
          [(2, ChannelM.mk (some [110]) [3])] [] 4) 5 3 (beBytes 4 2) []).1 3 [104]).2.map
        Prod.fst) = ch'.members ∧
      (channelRemoveRemote ch' 3).members.count 3 = 0) :=
  ⟨by decide, by decide, by decide, by norm_num,
    rejoin_duplicates_member
      (ServerStateM.mk [(3, RemoteM.mk 0 2 (some [97]) false false)] []
        [(2, ChannelM.mk (some [110]) [3])] [] 4) 5 3 2
      (RemoteM.mk 0 2 (some [97]) false false) (ChannelM.mk (some [110]) [3])
      [] [97] [104] (by decide) (by decide) (by decide)
      (by decide) (by norm_num) (by decide)⟩

/-! ## Client capture callback (`src/voudp/src/client.rs`)

`TARGET_FRAME_SIZE = 960`, `BUFFER_CAPACITY = TARGET_FRAME_SIZE * 10`.
The shared input deque is a list with the front at the head; `pop_front`
is `tail`, `push_back` appends.  `FloatOps.tanh` stands for `f32::tanh`. -/

/-- `f32` operations of the source that have no exact rational value; all
theorems hold for an arbitrary interpretation. -/
structure FloatOps where
  sqrt : ℚ → ℚ
  tanh : ℚ → ℚ

/-- client.rs:15. -/
def TARGET_FRAME_SIZE : ℕ := 960
/-- client.rs:16. -/
def BUFFER_CAPACITY : ℕ := TARGET_FRAME_SIZE * 10

/-- The mono branch of the input-stream callback (client.rs:218-233), one
incoming sample: when the deque holds at least `BUFFER_CAPACITY * 2`
floats, two are popped from the front; then the soft-saturated sample is
pushed twice (or two zeros when muted). -/
def monoCaptureStep (ops : FloatOps) (muted : Bool) (buf : List ℚ) (s : ℚ) : List ℚ :=
  let buf := if BUFFER_CAPACITY * 2 ≤ buf.length then buf.tail.tail else buf
  if !muted then
    let processed := ops.tanh (s * (4/5))
    buf ++ [processed, processed]
  else buf ++ [0, 0]

/-- The stereo branch of the input-stream callback (client.rs:234-246),
one incoming sample: when the deque holds at least `BUFFER_CAPACITY`
floats, ONE is popped from the front; then one sample is pushed. -/
def stereoCaptureStep (ops : FloatOps) (muted : Bool) (buf : List ℚ) (s : ℚ) : List ℚ :=
  let buf := if BUFFER_CAPACITY ≤ buf.length then buf.tail else buf
  if !muted then buf ++ [ops.tanh (s * (4/5))]
  else buf ++ [0]

/-- The whole input-stream callback (client.rs:216-247) over one `data`
slice, for 1 or 2 capture channels. -/
def inputCallback (ops : FloatOps) (channels : ℕ) (muted : Bool) (buf : List ℚ)
    (data : List ℚ) : List ℚ :=
  if channels = 1 then data.foldl (monoCaptureStep ops muted) buf
  else if channels = 2 then data.foldl (stereoCaptureStep ops muted) buf
  else buf

/-- C9 counterexample: in the stereo capture case the drop threshold is
`BUFFER_CAPACITY` (= FRAME_SAMPLES×10 = 9600 floats), not
FRAME_SAMPLES×10×2, and a single sample — not a pair — is dropped: a
buffer of 9600 floats (far below the claimed 19200-float capacity) is NOT
simply appended to; the front sample is dropped first, so the length stays
9600 where the claim demands 9601. -/
theorem stereo_capture_drops_below_claimed_capacity :
    stereoCaptureStep ⟨id, id⟩ true (List.replicate 9600 0) 0
      ≠ List.replicate 9600 0 ++ [0] := by
  have hL : (stereoCaptureStep ⟨id, id⟩ true (List.replicate 9600 0) 0).length = 9600 := by
    unfold stereoCaptureStep BUFFER_CAPACITY TARGET_FRAME_SIZE
    simp only [Bool.not_true, Bool.false_eq_true, if_false, List.length_replicate]
    rw [if_pos (by norm_num)]
    simp only [List.length_append, List.length_tail, List.length_replicate,
      List.length_cons, List.length_nil]
  have hR : (List.replicate 9600 (0:ℚ) ++ [0]).length = 9601 := by
    simp only [List.length_append, List.length_replicate, List.length_cons, List.length_nil]
  intro h
  have hlen := congrArg List.length h
  rw [hL, hR] at hlen
  exact absurd hlen (by norm_num)

/-- C9 amended: per incoming sample the mono branch keeps the input ring
at ≤ FRAME_SAMPLES×10×2 floats (dropping a front pair when full, the ring
length staying even), while the stereo branch drops a single front sample
at threshold FRAME_SAMPLES×10, keeping the ring at ≤ FRAME_SAMPLES×10
floats — half the claimed bound. -/
theorem input_ring_bounded (ops : FloatOps) (muted : Bool) (buf data : List ℚ) :
    (Even buf.length → buf.length ≤ BUFFER_CAPACITY * 2 →
      (inputCallback ops 1 muted buf data).length ≤ BUFFER_CAPACITY * 2 ∧
      Even (inputCallback ops 1 muted buf data).length) ∧
    (buf.length ≤ BUFFER_CAPACITY →
      (inputCallback ops 2 muted buf data).length ≤ BUFFER_CAPACITY) := by
  have hmono : ∀ b : List ℚ, ∀ s : ℚ, Even b.length → b.length ≤ BUFFER_CAPACITY * 2 →
      (monoCaptureStep ops muted b s).length ≤ BUFFER_CAPACITY * 2 ∧
      Even (monoCaptureStep ops muted b s).length := by
    intro b s hev hle
    have hcap : BUFFER_CAPACITY * 2 = 19200 := by norm_num [BUFFER_CAPACITY, TARGET_FRAME_SIZE]
    obtain ⟨k, hk⟩ := hev
    by_cases hfull : BUFFER_CAPACITY * 2 ≤ b.length
    · have hres : (monoCaptureStep ops muted b s).length = b.length - 2 + 2 := by
        unfold monoCaptureStep
        rw [if_pos hfull]
        cases muted <;> simp [List.length_tail] <;> omega
      constructor <;> [skip; rw [Nat.even_iff]] <;> omega
    · have hres : (monoCaptureStep ops muted b s).length = b.length + 2 := by
        unfold monoCaptureStep
        rw [if_neg hfull]
        cases muted <;> simp
      constructor <;> [skip; rw [Nat.even_iff]] <;> omega
  have hstereo : ∀ b : List ℚ, ∀ s : ℚ, b.length ≤ BUFFER_CAPACITY →
      (stereoCaptureStep ops muted b s).length ≤ BUFFER_CAPACITY := by
    intro b s hle
    have hcap : BUFFER_CAPACITY = 9600 := by norm_num [BUFFER_CAPACITY, TARGET_FRAME_SIZE]
    by_cases hfull : BUFFER_CAPACITY ≤ b.length
    · have hres : (stereoCaptureStep ops muted b s).length = b.length - 1 + 1 := by
        unfold stereoCaptureStep
        rw [if_pos hfull]
        cases muted <;> simp [List.length_tail]
      omega
    · have hres : (stereoCaptureStep ops muted b s).length = b.length + 1 := by
        unfold stereoCaptureStep
        rw [if_neg hfull]
        cases muted <;> simp
      omega
  have hfold1 : ∀ d b : List ℚ, Even b.length → b.length ≤ BUFFER_CAPACITY * 2 →
      (d.foldl (monoCaptureStep ops muted) b).length ≤ BUFFER_CAPACITY * 2 ∧
      Even (d.foldl (monoCaptureStep ops muted) b).length := by
    intro d
    induction d with
    | nil => intro b hev hle; exact ⟨hle, hev⟩
    | cons a as ih =>
      intro b hev hle
      obtain ⟨h1, h2⟩ := hmono b a hev hle
      simp only [List.foldl_cons]
      exact ih _ h2 h1
  have hfold2 : ∀ d b : List ℚ, b.length ≤ BUFFER_CAPACITY →
      (d.foldl (stereoCaptureStep ops muted) b).length ≤ BUFFER_CAPACITY := by
    intro d
    induction d with
    | nil => intro b hle; exact hle
    | cons a as ih =>
      intro b hle
      simp only [List.foldl_cons]
      exact ih _ (hstereo b a hle)
  constructor
  · intro hev hle
    show (List.foldl (monoCaptureStep ops muted) buf data).length ≤ BUFFER_CAPACITY * 2 ∧
      Even (List.foldl (monoCaptureStep ops muted) buf data).length
    exact hfold1 data buf hev hle
  · intro hle
    show (List.foldl (stereoCaptureStep ops muted) buf data).length ≤ BUFFER_CAPACITY
    exact hfold2 data buf hle

/-- Witness for `input_ring_bounded`: starting from the empty ring with a
one-sample slice, both bounds hold. -/
theorem input_ring_bounded_witness :
    (Even ([] : List ℚ).length ∧ ([] : List ℚ).length ≤ BUFFER_CAPACITY * 2 ∧
      (inputCallback ⟨id, id⟩ 1 true [] [0]).length ≤ BUFFER_CAPACITY * 2) ∧
    (([] : List ℚ).length ≤ BUFFER_CAPACITY ∧
      (inputCallback ⟨id, id⟩ 2 true [] [0]).length ≤ BUFFER_CAPACITY) :=
  ⟨⟨by decide, by norm_num,
      ((input_ring_bounded ⟨id, id⟩ true [] [0]).1 (by decide) (by norm_num)).1⟩,
    ⟨by norm_num, (input_ring_bounded ⟨id, id⟩ true [] [0]).2 (by norm_num)⟩⟩

/-! ## Mixer primitives (`src/voudp/src/mixer.rs`) and `Channel::mix`
(server.rs:163-242)

Samples are exact rationals; `f32::sqrt`/`f32::tanh` come from `FloatOps`.
`f32::max` on NaN-free inputs is `max`; `signum` of a non-negative-zero
f32 is modelled by `rsignum` (Rust's `0.0f32.signum() == 1.0`). -/

/-- `Clipping` (server.rs:26-30). -/
inductive Clipping
  | soft
  | hard
deriving DecidableEq, Repr

/-- The `ServerConfig` fields `Channel::mix` reads (server.rs:32-45). -/
structure MixConfig where
  framesize : ℕ
  shouldCompress : Bool
  shouldNormalize : Bool
  clipping : Clipping
  compressThreshold : ℚ
  compressRatio : ℚ
deriving DecidableEq, Repr

/-- `buf.iter().map(|s| s * s).sum()`. -/
def sumSq (buf : List ℚ) : ℚ := (buf.map fun s => s * s).sum

/-- `mixer::is_silent` (mixer.rs:68-74): RMS below `SILENCE_THRESHOLD`. -/
def is_silent (ops : FloatOps) (buf : List ℚ) : Bool :=
  decide (ops.sqrt (sumSq buf / (buf.length : ℚ)) < 1 / 1000)

/-- `f32::signum` for non-NaN, positive-zero inputs. -/
def rsignum (s : ℚ) : ℚ := if s < 0 then -1 else 1

/-- `mixer::compress` (mixer.rs:55-65). -/
def compress (threshold ratio : ℚ) (buf : List ℚ) : List ℚ :=
  buf.map fun s =>
    if |s| > threshold then rsignum s * (threshold + (|s| - threshold) * ratio) else s

/-- The peak fold of `mixer::normalize` (mixer.rs:4). -/
def peakAbs (buf : List ℚ) : ℚ := buf.foldl (fun m s => max m |s|) 0

/-- `mixer::normalize` (mixer.rs:3-12): rescale only when the peak
EXCEEDS 1.0 (`if max > 1.0`), multiplying by the reciprocal. -/
def normalize (buf : List ℚ) : List ℚ :=
  if peakAbs buf > 1 then buf.map fun s => s * (1 / peakAbs buf) else buf

/-- `mixer::soft_clip` (mixer.rs:14-18). -/
def soft_clip (ops : FloatOps) (buf : List ℚ) : List ℚ := buf.map ops.tanh

/-- `f32::clamp(-1.0, 1.0)` (server.rs:222). -/
def clamp1 (s : ℚ) : ℚ := min (max s (-1)) 1

/-- `mixer::remove_dc_bias` (mixer.rs:20-37), ALPHA = 0.995, one carried
state per stereo lane, interleaved pairs.  (The source indexes `buf[i+1]`
and would panic on an odd-length frame; frames always have even length
`framesize * 2`, and the catch-all case is unreachable there.) -/
def remove_dc_bias : List ℚ → ℚ × ℚ → List ℚ × (ℚ × ℚ)
  | l :: r :: rest, st =>
    let nl := l - st.1 + (199/200) * st.1
    let nr := r - st.2 + (199/200) * st.2
    let res := remove_dc_bias rest (nl, nr)
    (nl :: nr :: res.1, res.2)
  | buf, st => (buf, st)

/-- `filter_states.entry(addr).or_insert((0.0, 0.0))` (server.rs:171). -/
def stateOf (fs : List (ℕ × (ℚ × ℚ))) (a : ℕ) : ℚ × ℚ := (alookup fs a).getD (0, 0)

/-- The pre-processing loop of `Channel::mix` (server.rs:165-175): every
buffer of the right length that is not silent, DC-filtered with its
member's carried state. -/
def processedBuffers (ops : FloatOps) (cfg : MixConfig) (buffers : List (ℕ × List ℚ))
    (fs : List (ℕ × (ℚ × ℚ))) : List (ℕ × List ℚ) :=
  (buffers.filter fun p => p.2.length == cfg.framesize * 2 && !is_silent ops p.2).map
    fun p => (p.1, (remove_dc_bias p.2 (stateOf fs p.1)).1)

/-- The post-mix pipeline of `Channel::mix` (server.rs:207-224): compress
if enabled, then normalize if enabled, then clip. -/
def postProcess (ops : FloatOps) (cfg : MixConfig) (mix : List ℚ) : List ℚ :=
  let m1 := if cfg.shouldCompress then
      compress cfg.compressThreshold cfg.compressRatio mix
    else mix
  let m2 := if cfg.shouldNormalize then normalize m1 else m1
  match cfg.clipping with
  | Clipping.soft => soft_clip ops m2
  | Clipping.hard => m2.map clamp1

/-- The accumulation loop `mix[i] += sample * gain` (server.rs:200-205),
starting from a zero buffer of length `framesize * 2`. -/
def mixTalkers (cfg : MixConfig) (gain : ℚ) (talkers : List (List ℚ)) : List ℚ :=
  talkers.foldl (fun acc buf => List.zipWith (fun a s => a + s * gain) acc buf)
    (List.replicate (cfg.framesize * 2) 0)

/-- The personalized-mix branch of `Channel::mix` for one listener
occurrence (server.rs:178-236), up to Opus encoding: `none` means no
audio packet is produced for this listener this tick, `some mix` is the
sample buffer handed to the listener's encoder. -/
def mixFor (ops : FloatOps) (cfg : MixConfig) (buffers : List (ℕ × List ℚ))
    (fs : List (ℕ × (ℚ × ℚ))) (listener : ℕ) (deaf : Bool) : Option (List ℚ) :=
  if !(buffers.any fun p => p.1 == listener) || deaf then none
  else
    let talkers := (processedBuffers ops cfg buffers fs).filter fun p => p.1 != listener
    if talkers.length = 0 then none
    else
      let gain := 1 / ops.sqrt ((talkers.length : ℚ))
      some (postProcess ops cfg (mixTalkers cfg gain (talkers.map Prod.snd)))

/-- The §4.4 compressor exactly as the spec words it: for each sample `s`,
if `|s| > T` then `s ← sign(s)·(T + (|s| − T)·r)`. -/
def specCompress (threshold ratio : ℚ) (buf : List ℚ) : List ℚ :=
  buf.map fun s =>
    if |s| > threshold then rsignum s * (threshold + (|s| - threshold) * ratio) else s

/-- Normalization as the spec words it: "find peak ≥ 1.0 then divide by
peak so peak becomes 1.0; leave quieter mixes untouched". -/
def specNormalize (buf : List ℚ) : List ℚ :=
  if 1 ≤ peakAbs buf then buf.map fun s => s / peakAbs buf else buf

/-- The claim's post pipeline: compressed when compression is enabled,
normalized when normalization is enabled, finally clipped (soft tanh or
hard clamp to [−1, 1]). -/
def specPost (ops : FloatOps) (cfg : MixConfig) (mix : List ℚ) : List ℚ :=
  let m1 := if cfg.shouldCompress then
      specCompress cfg.compressThreshold cfg.compressRatio mix
    else mix
  let m2 := if cfg.shouldNormalize then specNormalize m1 else m1
  match cfg.clipping with
  | Clipping.soft => m2.map ops.tanh
  | Clipping.hard => m2.map clamp1

/-- The claim's (spec-side) per-listener mix for a non-deafened member R:
talkers are the DC-filtered input frames of all members other than R whose
current frame is non-silent; no talkers ⇒ no packet; otherwise the
sample-wise sum of the talkers' frames each scaled by gain 1/√N, fed to
the post pipeline. -/
def specMixFor (ops : FloatOps) (cfg : MixConfig) (buffers : List (ℕ × List ℚ))
    (fs : List (ℕ × (ℚ × ℚ))) (listener : ℕ) : Option (List ℚ) :=
  let talkers := (buffers.filter fun p => p.1 != listener && !is_silent ops p.2).map
    fun p => (remove_dc_bias p.2 (stateOf fs p.1)).1
  if talkers = [] then none
  else
    let gain := 1 / ops.sqrt ((talkers.length : ℚ))
    some (specPost ops cfg ((List.range (cfg.framesize * 2)).map
      fun i => (talkers.map fun f => f.getD i 0 * gain).sum))

/-- The DC filter preserves the frame length. -/
theorem remove_dc_length : ∀ (n : ℕ) (buf : List ℚ), buf.length ≤ n →
    ∀ st, (remove_dc_bias buf st).1.length = buf.length := by
  intro n
  induction n with
  | zero =>
    intro buf hle st
    cases buf with
    | nil => rfl
    | cons l rest => simp at hle
  | succ n ih =>
    intro buf hle st
    match buf with
    | [] => rfl
    | [l] => rfl
    | l :: r :: rest =>
      simp only [remove_dc_bias, List.length_cons]
      rw [ih rest (by simp at hle; omega) _]

/-- Pointwise view of one `mix[i] += sample * gain` pass. -/
theorem zipWith_add_getD (gain : ℚ) : ∀ (as bs : List ℚ) (i : ℕ), i < as.length →
    i < bs.length →
    (List.zipWith (fun a s => a + s * gain) as bs).getD i 0
      = as.getD i 0 + (bs.getD i 0) * gain := by
  intro as
  induction as with
  | nil => intro bs i h1 _; simp at h1
  | cons a as ih =>
    intro bs i h1 h2
    cases bs with
    | nil => simp at h2
    | cons b bs =>
      cases i with
      | zero => simp [List.zipWith]
      | succ i =>
        simp only [List.zipWith, List.getD_cons_succ]
        exact ih bs i (by simpa using h1) (by simpa using h2)

theorem zipWith_add_length (gain : ℚ) (as bs : List ℚ) :
    (List.zipWith (fun a s => a + s * gain) as bs).length = min as.length bs.length := by
  simp

/-- The accumulation loop keeps the mix buffer at length `L`. -/
theorem mixTalkers_foldl_length (gain : ℚ) (L : ℕ) :
    ∀ (frames : List (List ℚ)) (acc : List ℚ), acc.length = L →
    (∀ f ∈ frames, f.length = L) →
    (frames.foldl (fun acc buf => List.zipWith (fun a s => a + s * gain) acc buf) acc).length
      = L := by
  intro frames
  induction frames with
  | nil => intro acc hacc _; exact hacc
  | cons f fs ih =>
    intro acc hacc hf
    simp only [List.foldl_cons]
    refine ih _ ?_ fun g hg => hf g (by simp [hg])
    rw [zipWith_add_length, hacc, hf f (by simp)]
    omega

/-- Pointwise value of the accumulation loop. -/
theorem mixTalkers_foldl_getD (gain : ℚ) (L : ℕ) :
    ∀ (frames : List (List ℚ)) (acc : List ℚ), acc.length = L →
    (∀ f ∈ frames, f.length = L) → ∀ i, i < L →
    (frames.foldl (fun acc buf => List.zipWith (fun a s => a + s * gain) acc buf) acc).getD i 0
      = acc.getD i 0 + (frames.map fun f => f.getD i 0 * gain).sum := by
  intro frames
  induction frames with
  | nil => intro acc hacc _ i hi; simp
  | cons f fs ih =>
    intro acc hacc hf i hi
    have hflen : f.length = L := hf f (by simp)
    have hacc' : (List.zipWith (fun a s => a + s * gain) acc f).length = L := by
      rw [zipWith_add_length, hacc, hflen]; omega
    simp only [List.foldl_cons, List.map_cons, List.sum_cons]
    rw [ih _ hacc' (fun g hg => hf g (by simp [hg])) i hi,
      zipWith_add_getD gain acc f i (by omega) (by omega)]
    ring

/-- `Channel::mix`'s accumulation equals the spec's sample-wise sum of the
talker frames scaled by the gain. -/
theorem mixTalkers_eq_sum (cfg : MixConfig) (gain : ℚ) (frames : List (List ℚ))
    (hf : ∀ f ∈ frames, f.length = cfg.framesize * 2) :
    mixTalkers cfg gain frames
      = (List.range (cfg.framesize * 2)).map
          fun i => (frames.map fun f => f.getD i 0 * gain).sum := by
  set L := cfg.framesize * 2 with hL
  have hrep : (List.replicate L (0:ℚ)).length = L := by simp
  apply List.ext_getElem
  · rw [mixTalkers, mixTalkers_foldl_length gain L frames _ hrep hf]
    simp
  · intro i h1 h2
    have hiL : i < L := by
      rw [mixTalkers, mixTalkers_foldl_length gain L frames _ hrep hf] at h1
      exact h1
    have hget := mixTalkers_foldl_getD gain L frames (List.replicate L 0) hrep hf i hiL
    have hz : (List.replicate L (0:ℚ)).getD i 0 = 0 := by
      rw [List.getD_eq_getElem _ _ (by simpa using hiL)]
      simp
    rw [← List.getD_eq_getElem _ 0 h1, ← List.getD_eq_getElem _ 0 h2]
    rw [mixTalkers, hget, hz, zero_add]
    rw [List.getD_eq_getElem _ 0 h2, List.getElem_map, List.getElem_range]

/-- The spec's normalization agrees with `mixer::normalize` everywhere
(dividing by a peak of exactly 1 is the identity). -/
theorem specNormalize_eq (buf : List ℚ) : specNormalize buf = normalize buf := by
  unfold specNormalize normalize
  rcases lt_trichotomy (peakAbs buf) 1 with h | h | h
  · rw [if_neg (by linarith), if_neg (by linarith)]
  · rw [if_pos (le_of_eq h.symm), if_neg (by rw [h]; exact lt_irrefl 1), h]
    simp
  · rw [if_pos (le_of_lt h), if_pos h]
    have : (fun s : ℚ => s / peakAbs buf) = fun s : ℚ => s * (1 / peakAbs buf) := by
      funext s
      rw [div_eq_mul_inv, one_div]
    rw [this]

/-- The claim's post pipeline is `Channel::mix`'s post pipeline. -/
theorem specPost_eq (ops : FloatOps) (cfg : MixConfig) (mix : List ℚ) :
    specPost ops cfg mix = postProcess ops cfg mix := by
  unfold specPost postProcess specCompress compress soft_clip
  simp only [specNormalize_eq]

/-- The two talker selections agree: filtering the processed buffers by
`addr != listener` and projecting the frames equals filtering the raw
buffers by `other member && non-silent` and DC-filtering, provided every
buffer has length `framesize * 2`. -/
theorem talkers_eq (ops : FloatOps) (cfg : MixConfig) (fs : List (ℕ × (ℚ × ℚ)))
    (listener : ℕ) : ∀ buffers : List (ℕ × List ℚ),
    (∀ p ∈ buffers, p.2.length = cfg.framesize * 2) →
    ((processedBuffers ops cfg buffers fs).filter fun p => p.1 != listener).map Prod.snd
      = (buffers.filter fun p => p.1 != listener && !is_silent ops p.2).map
          fun p => (remove_dc_bias p.2 (stateOf fs p.1)).1 := by
  intro buffers
  induction buffers with
  | nil => intro _; rfl
  | cons q qs ih =>
    intro hl
    have hq : (q.2.length == cfg.framesize * 2) = true := by
      simp [hl q (by simp)]
    have ihh := ih fun p hp => hl p (by simp [hp])
    simp only [processedBuffers, List.filter_cons] at ihh ⊢
    by_cases hsil : is_silent ops q.2
    · simp only [hq, hsil, Bool.not_true, Bool.and_false, Bool.true_and,
        Bool.false_eq_true, if_false]
      exact ihh
    · have hns : is_silent ops q.2 = false := by simpa using hsil
      simp only [hq, hns, Bool.not_false, Bool.and_true, Bool.true_and, if_true,
        List.map_cons, List.filter_cons]
      by_cases hlis : (q.1 != listener) = true
      · simp only [hlis, if_true, List.map_cons]
        rw [ihh]
      · have hlis' : (q.1 != listener) = false := by simpa using hlis
        simp only [hlis', Bool.false_eq_true, if_false]
        exact ihh

/-- C1: for every listener occurrence R that is not deafened, per tick,
`Channel::mix` produces exactly what the claim describes: no packet when
the set of other members with non-silent frames is empty, else the buffer
sent to R's encoder is the sample-wise sum of the DC-filtered non-silent
frames of the other members scaled by 1/√N, then compressed when enabled,
normalized when enabled, and clipped (soft tanh or hard clamp).
Hypotheses are the channel invariants (§3): the listener is a key of the
input-frame map, and every input frame has length `framesize * 2`. -/
theorem mix_matches_spec (ops : FloatOps) (cfg : MixConfig)
    (buffers : List (ℕ × List ℚ)) (fs : List (ℕ × (ℚ × ℚ))) (listener : ℕ)
    (hmem : (buffers.any fun p => p.1 == listener) = true)
    (hlen : ∀ p ∈ buffers, p.2.length = cfg.framesize * 2) :
    mixFor ops cfg buffers fs listener false = specMixFor ops cfg buffers fs listener := by
  have htalk := talkers_eq ops cfg fs listener buffers hlen
  unfold mixFor specMixFor
  rw [hmem]
  simp only [Bool.not_true, Bool.or_false, Bool.false_eq_true, if_false]
  set Tc := (processedBuffers ops cfg buffers fs).filter (fun p => p.1 != listener)
    with hTcDef
  set Ts := (buffers.filter fun p => p.1 != listener && !is_silent ops p.2).map
    (fun p => (remove_dc_bias p.2 (stateOf fs p.1)).1) with hTsDef
  have hTlen : Tc.length = Ts.length := by rw [← htalk, List.length_map]
  have hframes : ∀ f ∈ Ts, f.length = cfg.framesize * 2 := by
    intro f hf
    rw [hTsDef] at hf
    obtain ⟨p, hp, rfl⟩ := List.mem_map.mp hf
    have hp' : p ∈ buffers := List.mem_of_mem_filter hp
    rw [remove_dc_length p.2.length p.2 le_rfl]
    exact hlen p hp'
  by_cases hTnil : Ts = []
  · have h0 : Tc.length = 0 := by rw [hTlen, hTnil]; rfl
    rw [if_pos h0, if_pos hTnil]
  · have hne : ¬(Tc.length = 0) := by
      rw [hTlen]
      simpa using hTnil
    rw [if_neg hne, if_neg hTnil, htalk, hTlen,
      mixTalkers_eq_sum cfg _ Ts hframes, specPost_eq]

/-- Witness for `mix_matches_spec`: two members, one silent listener, one
talker at constant 1; with threshold 1/2 and ratio 4/5 both sides produce
the 9/10-valued frame. -/
theorem mix_matches_spec_witness :
    ((([(0, [1, 1]), (1, [0, 0])] : List (ℕ × List ℚ)).any fun p => p.1 == 1) = true) ∧
    (∀ p ∈ ([(0, [1, 1]), (1, [0, 0])] : List (ℕ × List ℚ)),
      p.2.length = (MixConfig.mk 1 true true Clipping.hard (1/2) (4/5)).framesize * 2) ∧
    mixFor ⟨id, id⟩ (MixConfig.mk 1 true true Clipping.hard (1/2) (4/5))
        [(0, [1, 1]), (1, [0, 0])] [] 1 false
      = specMixFor ⟨id, id⟩ (MixConfig.mk 1 true true Clipping.hard (1/2) (4/5))
        [(0, [1, 1]), (1, [0, 0])] [] 1 :=
  ⟨by decide, by decide,
    mix_matches_spec ⟨id, id⟩ (MixConfig.mk 1 true true Clipping.hard (1/2) (4/5))
      [(0, [1, 1]), (1, [0, 0])] [] 1 (by decide) (by decide)⟩

end Voudp
